import Mathlib

/-!
Verification development for the search-index update engine
(`src/search/search-index/add.js`).

The JavaScript module maintains inverted indexes over page documents in an
ordered key-value store.  We give a shallow embedding:

* JS `Set` fields of a document are modelled as `List String` in insertion
  order (a JS `Set` iterates in insertion order and holds no duplicates);
  `new Set([...a, ...b])` is `setUnion a b` below.
* JS `Map` postings values and the key-value store itself are modelled as
  association lists with first-occurrence lookup and in-place overwrite,
  exactly the observable behaviour of `Map.get`/`Map.set` and of the store's
  `get`/`put`.
* The store can hold three kinds of values: postings maps, stored document
  records, and page-id strings (reverse timestamp entries).  JavaScript is
  dynamically typed, so operations that would throw a `TypeError` when a key
  holds a value of an unexpected shape are modelled as `Except` errors.
* Store faults ("StoreError") are injected through a `StoreCfg` naming the
  keys whose puts fail; a failed put leaves the store unchanged and errors.
* Asynchrony: the module runs on a single-threaded cooperative scheduler and
  all claims here concern a single orchestration pass, so the five indexers
  launched by `Promise.all` are modelled by running them in their launch
  order; `await` of an already-rejected promise is an `Except.error` input.
-/

/-- Per-document postings value: `{ latest }` (latest visit/bookmark
timestamp, used for scoring).  Timestamps are modelled as `Nat`. -/
structure IndexTermValue where
  latest : Nat
deriving DecidableEq, Repr

/-- A pipeline-produced document (`IndexLookupDoc` in the source).  The five
set-valued fields are JS `Set`s, modelled as lists in insertion order. -/
structure IndexDoc where
  id : String
  domain : String
  terms : List String
  urlTerms : List String
  titleTerms : List String
  visits : List String
  bookmarks : List String
  latest : Nat
deriving DecidableEq, Repr

/-- A postings map: JS `Map` from document id to `IndexTermValue`. -/
abbrev Postings := List (String × IndexTermValue)

/-- A value stored in the index: a postings map (term/domain keys), a stored
document record (page-id keys), or a raw page-id string (reverse timestamp
keys). -/
inductive StoreVal where
  | postings (m : Postings)
  | record (d : IndexDoc)
  | pageId (p : String)
deriving DecidableEq, Repr

/-- The key-value store, an association list keyed by strings. -/
abbrev Store := List (String × StoreVal)

/-- Errors arising in the module. -/
inductive IndexErr where
  /-- `addBookmark`: no document exists in the reverse page index for the
  supplied page ID. -/
  | notFound (pageId : String)
  /-- A JS `TypeError` from dynamic typing (e.g. calling `.set` on a
  non-`Map`, or spreading `.terms` of a non-record store value). -/
  | typeError
  /-- An injected store fault during a put/batch write. -/
  | storeError
  /-- A rejection coming out of the external extraction pipeline. -/
  | pipelineError (msg : String)
deriving DecidableEq, Repr

/-! ### Association lists (JS `Map` and the key-value store) -/

/-- First-occurrence lookup, the behaviour of `Map.get` and store `get`. -/
def alistGet {α : Type} : List (String × α) → String → Option α
  | [], _ => none
  | (k', v) :: rest, k => if k' = k then some v else alistGet rest k

/-- In-place overwrite of the first occurrence (append when absent), the
behaviour of `Map.set` and store `put`. -/
def alistPut {α : Type} : List (String × α) → String → α → List (String × α)
  | [], k, v => [(k, v)]
  | (k', v') :: rest, k, v =>
    if k' = k then (k, v) :: rest else (k', v') :: alistPut rest k v

/-! ### JS `Set` operations on insertion-ordered lists -/

/-- `Set.add`: appends unless already present. -/
def setAdd (l : List String) (x : String) : List String :=
  if x ∈ l then l else l ++ [x]

/-- `new Set(xs)`: first-occurrence deduplication in order. -/
def jsSetOf (xs : List String) : List String := xs.foldl setAdd []

/-- `new Set([...a, ...b])`. -/
def setUnion (a b : List String) : List String := jsSetOf (a ++ b)

/-! ### The store interface with injected faults -/

/-- Fault-injection configuration for the external store: puts (single or
batched) on the listed keys fail with a `StoreError`. -/
structure StoreCfg where
  failPuts : List String
deriving DecidableEq, Repr

/-- The fault-free configuration. -/
def noFail : StoreCfg := ⟨[]⟩

/-- `index.put(key, val)`: overwrites the entry; on an injected fault the
store is unchanged and the returned promise rejects. -/
def putE (cfg : StoreCfg) (s : Store) (key : String) (val : StoreVal) :
    Store × Except IndexErr Unit :=
  if key ∈ cfg.failPuts then (s, .error .storeError)
  else (alistPut s key val, .ok ())

/-- Apply a list of batched puts in order. -/
def foldPut (s : Store) (b : List (String × StoreVal)) : Store :=
  b.foldl (fun st p => alistPut st p.1 p.2) s

/-- `idbBatchToPromise(indexBatch)`: an atomic multi-put — the whole batch
commits, or (on an injected fault on any of its keys) none of it does. -/
def batchCommit (cfg : StoreCfg) (s : Store) (b : List (String × StoreVal)) :
    Store × Except IndexErr Unit :=
  if ∃ p ∈ b, p.1 ∈ cfg.failPuts then (s, .error .storeError)
  else (foldPut s b, .ok ())

/-- Modelled from the spec: `initSingleLookup` (defined in `./util`, which is
not under `src/`) performs a direct point read returning the stored value, or
null when the key is absent (§4.1). -/
def singleLookup (s : Store) (key : String) : Option StoreVal :=
  alistGet s key

/-- Modelled from the spec: `initLookupByKeys` (defined in `./util`, not under
`src/`) performs batched point reads, returning every requested key with its
value or null when absent (§4.1). -/
def lookupByKeys (s : Store) (keys : List String) : List (String × Option StoreVal) :=
  keys.map fun k => (k, alistGet s k)

/-- Modelled from the spec: `termRangeLookup` (defined in `./util`, not under
`src/`) scans all keys sharing `keyPre` and intersects with the requested key
set; §4.1 and §8 guarantee its results are identical to `lookupByKeys`, which
is how it is modelled. -/
def termRangeLookup (_keyPre : String) (s : Store) (keys : List String) :
    List (String × Option StoreVal) :=
  lookupByKeys s keys

/-- Modelled from the spec: `augmentIndexLookupDoc` (defined in `./util`, not
under `src/`) is a pure function over the merged record (§6) that derives
computed score fields; on the fields of the data model captured here it
changes nothing (§3, §4.6: `domain` and `latest` of the persisted record come
from the incoming document), so it is modelled as the identity. -/
def augmentIndexLookupDoc (doc : IndexDoc) : IndexDoc :=
  doc

/-! ### The functions of `add.js` -/

/-- `reduceTermValue(currTermVal, indexDoc)`: if the current postings value is
null, a fresh single-entry `Map`; else `Map.set` of the entry for
`indexDoc.id`, returning the same map.  Calling `.set` on a non-`Map` store
value throws a `TypeError`. -/
def reduceTermValue (currTermVal : Option StoreVal) (indexDoc : IndexDoc) :
    Except IndexErr Postings :=
  match currTermVal with
  | none => .ok [(indexDoc.id, ⟨indexDoc.latest⟩)]
  | some (.postings m) => .ok (alistPut m indexDoc.id ⟨indexDoc.latest⟩)
  | some _ => .error .typeError

/-- The `for (const [term, currTermVal] of termValuesMap)` loop of
`initIndexTerms`: reduce each looked-up value and accumulate the batch puts
in iteration order; the first `TypeError` aborts the loop. -/
def buildTermBatch (indexDoc : IndexDoc) :
    List (String × Option StoreVal) → Except IndexErr (List (String × StoreVal))
  | [] => .ok []
  | (term, currTermVal) :: rest =>
    match reduceTermValue currTermVal indexDoc with
    | .error e => .error e
    | .ok termValue =>
      match buildTermBatch indexDoc rest with
      | .error e => .error e
      | .ok b => .ok ((term, .postings termValue) :: b)

/-- Threshold deciding between a range lookup and N single lookups. -/
def termsSizeLimit : Nat := 3000

/-- `initIndexTerms(termsField, termKey)`: no-op when the term set is empty;
else resolve current postings for every term (range scan when the set is
larger than `termsSizeLimit`, batched point reads otherwise), fold the
document in with `reduceTermValue`, and flush one atomic batch. -/
def initIndexTerms (termsField : IndexDoc → List String) (termKey : String)
    (cfg : StoreCfg) (s : Store) (indexDoc : IndexDoc) : Store × Except IndexErr Unit :=
  let termsSet := termsField indexDoc
  if termsSet = [] then (s, .ok ())
  else
    let termValuesMap :=
      if termsSet.length > termsSizeLimit then termRangeLookup termKey s termsSet
      else lookupByKeys s termsSet
    match buildTermBatch indexDoc termValuesMap with
    | .error e => (s, .error e)
    | .ok indexBatch => batchCommit cfg s indexBatch

/-- `indexTerms = initIndexTerms('terms', 'term/')`. -/
def indexTerms : StoreCfg → Store → IndexDoc → Store × Except IndexErr Unit :=
  initIndexTerms (fun d => d.terms) "term/"

/-- `indexUrlTerms = initIndexTerms('urlTerms', 'url/')`. -/
def indexUrlTerms : StoreCfg → Store → IndexDoc → Store × Except IndexErr Unit :=
  initIndexTerms (fun d => d.urlTerms) "url/"

/-- `indexTitleTerms = initIndexTerms('titleTerms', 'title/')`. -/
def indexTitleTerms : StoreCfg → Store → IndexDoc → Store × Except IndexErr Unit :=
  initIndexTerms (fun d => d.titleTerms) "title/"

/-- `indexMetaTimestamps(indexDoc)`: batch-look-up all bookmark then visit
keys; for every key whose current value differs from `indexDoc.id`, queue a
put of `key -> indexDoc.id`; flush as one batch. -/
def indexMetaTimestamps (cfg : StoreCfg) (s : Store) (indexDoc : IndexDoc) :
    Store × Except IndexErr Unit :=
  let timeValuesMap := lookupByKeys s (indexDoc.bookmarks ++ indexDoc.visits)
  let indexBatch := timeValuesMap.filterMap fun kv =>
    if kv.2 ≠ some (.pageId indexDoc.id) then some (kv.1, StoreVal.pageId indexDoc.id)
    else none
  batchCommit cfg s indexBatch

/-- `indexDomain(indexDoc)`: resolve existing postings for the domain key,
merge the document in, write back the single key. -/
def indexDomain (cfg : StoreCfg) (s : Store) (indexDoc : IndexDoc) :
    Store × Except IndexErr Unit :=
  match reduceTermValue (singleLookup s indexDoc.domain) indexDoc with
  | .error e => (s, .error e)
  | .ok m => putE cfg s indexDoc.domain (.postings m)

/-- The merge object literal of `indexPage`: spread of the incoming document
with `terms`, `titleTerms`, `visits`, `bookmarks` replaced by the set-union
of existing and incoming (`urlTerms`, `domain`, `latest`, `id` come from the
incoming document via the spread). -/
def mergeDoc (existingDoc indexDoc : IndexDoc) : IndexDoc :=
  { indexDoc with
    terms := setUnion existingDoc.terms indexDoc.terms
    titleTerms := setUnion existingDoc.titleTerms indexDoc.titleTerms
    visits := setUnion existingDoc.visits indexDoc.visits
    bookmarks := setUnion existingDoc.bookmarks indexDoc.bookmarks }

/-- The body of `indexPage` up to the put: `!existingDoc` (JS falsiness: a
missing value, or an empty string stored at the page key) keeps the incoming
document verbatim; a stored record is merged; any other truthy value makes
the spreads of its absent `terms`/`titleTerms`/`visits`/`bookmarks` throw a
`TypeError`.  The result is passed through `augmentIndexLookupDoc`. -/
def mergePage (existingDoc : Option StoreVal) (indexDoc : IndexDoc) :
    Except IndexErr IndexDoc :=
  match existingDoc with
  | none => .ok (augmentIndexLookupDoc indexDoc)
  | some (.pageId "") => .ok (augmentIndexLookupDoc indexDoc)
  | some (.record e) => .ok (augmentIndexLookupDoc (mergeDoc e indexDoc))
  | some _ => .error .typeError

/-- `indexPage(indexDoc)`: look up any existing record for `indexDoc.id`,
merge, augment, persist under `indexDoc.id`, and return the augmented
record. -/
def indexPage (cfg : StoreCfg) (s : Store) (indexDoc : IndexDoc) :
    Store × Except IndexErr IndexDoc :=
  match mergePage (singleLookup s indexDoc.id) indexDoc with
  | .error e => (s, .error e)
  | .ok augIndexDoc =>
    match putE cfg s indexDoc.id (.record augIndexDoc) with
    | (s', .error e) => (s', .error e)
    | (s', .ok _) => (s', .ok augIndexDoc)

/-- `Promise.all`: every branch runs to completion; the combined promise
rejects with the first rejection if any. -/
def firstErr : List (Except IndexErr Unit) → Except IndexErr Unit
  | [] => .ok ()
  | .ok _ :: rest => firstErr rest
  | .error e :: _ => .error e

/-- The `Promise.all` fan-out of `performIndexing`: the five indexers are
launched concurrently on the single-threaded cooperative scheduler and are
modelled by running them in launch order. -/
def runIndexers (cfg : StoreCfg) (s : Store) (augIndexDoc : IndexDoc) :
    Store × Except IndexErr Unit :=
  let r1 := indexDomain cfg s augIndexDoc
  let r2 := indexUrlTerms cfg r1.1 augIndexDoc
  let r3 := indexTitleTerms cfg r2.1 augIndexDoc
  let r4 := indexTerms cfg r3.1 augIndexDoc
  let r5 := indexMetaTimestamps cfg r4.1 augIndexDoc
  (r5.1, firstErr [r1.2, r2.2, r3.2, r4.2, r5.2])

/-- `performIndexing(indexDoc)`: await the (possibly pending, possibly
already-rejected) document production — a rejection, or an `undefined`
document whose `.terms` access throws, surfaces before the `try` block; an
empty primary term set returns immediately with no writes; otherwise run
`indexPage` and the five indexers inside `try { .. } catch (err) {
console.error(err) }`, so every failure there is swallowed and the pass
resolves successfully. -/
def performIndexing (cfg : StoreCfg) (s : Store)
    (indexDocPromise : Except IndexErr (Option IndexDoc)) : Store × Except IndexErr Unit :=
  match indexDocPromise with
  | .error e => (s, .error e)
  | .ok none => (s, .error .typeError)
  | .ok (some indexDoc) =>
    if indexDoc.terms = [] then (s, .ok ())
    else
      match indexPage cfg s indexDoc with
      | (s1, .error _) => (s1, .ok ())
      | (s1, .ok augIndexDoc) => ((runIndexers cfg s1 augIndexDoc).1, .ok ())

/-- `addPage(req) = performIndexing(pipeline(req))`: the direct,
non-concurrency-safe path; a pipeline rejection reaches the `await` inside
`performIndexing` and rejects the whole call. -/
def addPage (cfg : StoreCfg) (s : Store) (pipelined : Except IndexErr IndexDoc) :
    Store × Except IndexErr Unit :=
  performIndexing cfg s (pipelined.map some)

deriving instance DecidableEq for Except

/-- Observable outcome of a queue-path submission: how many work items were
pushed onto the serialized write queue, the final store, and the settlement
of the promise handed to the caller. -/
structure ConcurrentResult where
  queuePushes : Nat
  store : Store
  outcome : Except IndexErr Unit
deriving DecidableEq, Repr

/-- `addPageConcurrent(req)`: `pipeline(req).catch(reject)` rejects the outer
promise on pipeline failure and leaves `indexDoc` resolving to `undefined`;
`indexQueue.push(..)` is then called unconditionally, so exactly one work
item is enqueued on every call.  The queued task runs
`performIndexing(indexDoc)` — with an `undefined` document it throws on
`.terms` before any store access — and settles the promise (a second
settlement after a pipeline rejection is a no-op, so the pipeline error
wins). -/
def addPageConcurrent (cfg : StoreCfg) (s : Store)
    (pipelined : Except IndexErr IndexDoc) : ConcurrentResult :=
  let indexDoc : Option IndexDoc := match pipelined with
    | .ok d => some d
    | .error _ => none
  let run := performIndexing cfg s (.ok indexDoc)
  { queuePushes := 1
    store := run.1
    outcome := match pipelined with
      | .error e => .error e
      | .ok _ => run.2 }

/-- Modelled from the spec: `bookmarkKeyPrefix` is imported from
`src/bookmarks` (not under `src/` here) and is an externally supplied fixed
key-prefix constant (§1); the bookmark key is the prefix followed by the
timestamp (§4.8, template literal in the source). -/
def bookmarkKey (timestamp : Nat) : String :=
  "bookmark/" ++ toString timestamp

/-- `addBookmark(pageId, timestamp = Date.now())`: look up the record (throw
"No document exists …" when null), put `bookmarkKey -> pageId` into the
reverse timestamp space, then add the key to the record's bookmark `Set` and
persist the record (a non-record store value throws a `TypeError` there,
after the first put). -/
def addBookmark (cfg : StoreCfg) (s : Store) (pageId : String) (timestamp : Nat) :
    Store × Except IndexErr Unit :=
  match singleLookup s pageId with
  | none => (s, .error (.notFound pageId))
  | some reverseIndexDoc =>
    let bkKey := bookmarkKey timestamp
    match putE cfg s bkKey (.pageId pageId) with
    | (s1, .error e) => (s1, .error e)
    | (s1, .ok _) =>
      match reverseIndexDoc with
      | .record d =>
        putE cfg s1 pageId (.record { d with bookmarks := setAdd d.bookmarks bkKey })
      | _ => (s1, .error .typeError)

/-- `addBookmarkConcurrent(pageId, timestamp = Date.now())`: binds the
caller-supplied `timestamp` (defaulting to the current time, the `now`
parameter here) but pushes onto the queue a task calling `addBookmark(pageId)`
with no timestamp argument, so `addBookmark`'s own `Date.now()` default is
what reaches the key construction; the bound `timestamp` is never passed
on. -/
def addBookmarkConcurrent (cfg : StoreCfg) (now : Nat) (s : Store)
    (pageId : String) (timestamp : Option Nat) : Store × Except IndexErr Unit :=
  let _timestamp := timestamp.getD now
  addBookmark cfg s pageId now

/-- A store slot is well-typed as a postings slot when it is empty or holds a
postings map — the states reachable for term/domain keys under the module's
own writes, and the states on which `reduceTermValue` does not throw. -/
def typedPostings : Option StoreVal → Prop
  | none => True
  | some (.postings _) => True
  | some (.record _) => False
  | some (.pageId _) => False

instance (c : Option StoreVal) : Decidable (typedPostings c) :=
  match c with
  | none => isTrue trivial
  | some (.postings _) => isTrue trivial
  | some (.record _) => isFalse fun h => h
  | some (.pageId _) => isFalse fun h => h

/-! ## Lemmas about the map/store model -/

theorem alistGet_put_self {α : Type} (m : List (String × α)) (k : String) (v : α) :
    alistGet (alistPut m k v) k = some v := by
  induction m with
  | nil => simp [alistGet, alistPut]
  | cons hd tl ih =>
    by_cases h : hd.1 = k
    · simp [alistPut, alistGet, h]
    · simp [alistPut, alistGet, h, ih]

theorem alistGet_put_ne {α : Type} (m : List (String × α)) (k k' : String) (v : α)
    (h : k ≠ k') : alistGet (alistPut m k v) k' = alistGet m k' := by
  induction m with
  | nil => simp [alistGet, alistPut, h]
  | cons hd tl ih =>
    obtain ⟨k0, v0⟩ := hd
    by_cases hh : k0 = k
    · subst hh
      simp [alistPut, alistGet, h]
    · by_cases hk : k0 = k'
      · subst hk
        simp [alistPut, alistGet, hh]
      · simp [alistPut, alistGet, hh, hk, ih]

theorem alistPut_put {α : Type} (m : List (String × α)) (k : String) (v w : α) :
    alistPut (alistPut m k v) k w = alistPut m k w := by
  induction m with
  | nil => simp [alistPut]
  | cons hd tl ih =>
    by_cases h : hd.1 = k
    · simp [alistPut, h]
    · simp [alistPut, h, ih]

theorem alistPut_of_get {α : Type} (m : List (String × α)) (k : String) (v : α)
    (h : alistGet m k = some v) : alistPut m k v = m := by
  induction m with
  | nil => simp [alistGet] at h
  | cons hd tl ih =>
    by_cases hh : hd.1 = k
    · simp [alistGet, hh] at h
      simp [alistPut, hh, h]
      exact Prod.ext hh.symm h.symm
    · simp [alistGet, hh] at h
      simp [alistPut, hh, ih h]

/-! ## Lemmas about the JS `Set` model -/

theorem mem_setAdd (l : List String) (x y : String) :
    y ∈ setAdd l x ↔ y ∈ l ∨ y = x := by
  unfold setAdd
  by_cases h : x ∈ l
  · simp only [if_pos h]
    constructor
    · exact Or.inl
    · rintro (hy | rfl)
      · exact hy
      · exact h
  · simp [if_neg h]

theorem setAdd_nodup (l : List String) (x : String) (h : l.Nodup) :
    (setAdd l x).Nodup := by
  unfold setAdd
  by_cases hx : x ∈ l
  · simpa [if_pos hx]
  · rw [if_neg hx]
    have hiff : (l ++ [x]).Nodup ↔ l.Nodup ∧ x ∉ l := by
      simp [List.nodup_append]
    exact hiff.mpr ⟨h, hx⟩

theorem setAdd_of_mem {l : List String} {x : String} (h : x ∈ l) :
    setAdd l x = l := by
  simp [setAdd, h]

theorem mem_foldl_setAdd (xs : List String) (acc : List String) (y : String) :
    y ∈ xs.foldl setAdd acc ↔ y ∈ acc ∨ y ∈ xs := by
  induction xs generalizing acc with
  | nil => simp
  | cons hd tl ih =>
    simp only [List.foldl_cons, ih, mem_setAdd, List.mem_cons]
    tauto

theorem nodup_foldl_setAdd (xs : List String) (acc : List String) (h : acc.Nodup) :
    (xs.foldl setAdd acc).Nodup := by
  induction xs generalizing acc with
  | nil => simpa
  | cons hd tl ih => exact ih _ (setAdd_nodup _ _ h)

theorem foldl_setAdd_subset (xs : List String) (acc : List String)
    (h : ∀ x ∈ xs, x ∈ acc) : xs.foldl setAdd acc = acc := by
  induction xs with
  | nil => rfl
  | cons hd tl ih =>
    have hhd : hd ∈ acc := h hd (List.mem_cons_self hd tl)
    simp only [List.foldl_cons, setAdd_of_mem hhd]
    exact ih fun x hx => h x (List.mem_cons_of_mem _ hx)

theorem foldl_setAdd_fresh (xs : List String) (acc : List String)
    (hacc : acc.Nodup) (hxs : xs.Nodup) (hdisj : ∀ x ∈ xs, x ∉ acc) :
    xs.foldl setAdd acc = acc ++ xs := by
  induction xs generalizing acc with
  | nil => simp
  | cons hd tl ih =>
    have hhd : hd ∉ acc := hdisj hd (List.mem_cons_self hd tl)
    have hstep : setAdd acc hd = acc ++ [hd] := by simp [setAdd, hhd]
    simp only [List.foldl_cons, hstep]
    rw [ih (acc ++ [hd])]
    · simp
    · simp [List.nodup_append, hhd, hacc]
    · exact (List.nodup_cons.mp hxs).2
    · intro x hx
      simp only [List.mem_append, List.mem_singleton]
      rintro (hx' | rfl)
      · exact hdisj x (List.mem_cons_of_mem _ hx) hx'
      · exact (List.nodup_cons.mp hxs).1 hx

theorem jsSetOf_of_nodup {l : List String} (h : l.Nodup) : jsSetOf l = l := by
  unfold jsSetOf
  rw [foldl_setAdd_fresh l [] (by simp) h (by simp)]
  simp

theorem mem_jsSetOf (xs : List String) (y : String) :
    y ∈ jsSetOf xs ↔ y ∈ xs := by
  simp [jsSetOf, mem_foldl_setAdd]

theorem jsSetOf_nodup (xs : List String) : (jsSetOf xs).Nodup :=
  nodup_foldl_setAdd xs [] (by simp)

theorem mem_setUnion (a b : List String) (y : String) :
    y ∈ setUnion a b ↔ y ∈ a ∨ y ∈ b := by
  simp [setUnion, mem_jsSetOf]

theorem setUnion_nodup (a b : List String) : (setUnion a b).Nodup :=
  jsSetOf_nodup _

theorem setUnion_absorb {u b : List String} (hu : u.Nodup)
    (hb : ∀ x ∈ b, x ∈ u) : setUnion u b = u := by
  unfold setUnion jsSetOf
  rw [List.foldl_append]
  have h1 : List.foldl setAdd [] u = u := by
    simpa [jsSetOf] using jsSetOf_of_nodup hu
  rw [h1]
  exact foldl_setAdd_subset b u hb

/-! ## Store-interface helper lemmas -/

theorem putE_noFail (s : Store) (k : String) (v : StoreVal) :
    putE noFail s k v = (alistPut s k v, .ok ()) := by
  simp [putE, noFail]

theorem batchCommit_noFail (s : Store) (b : List (String × StoreVal)) :
    batchCommit noFail s b = (foldPut s b, .ok ()) := by
  simp [batchCommit, noFail]

/-! ## Claim theorems -/

/-- C1: `reduceTermValue` applied to a null/absent existing postings entry
returns a new single-entry mapping from `doc.id` to `{ latest: doc.latest }`;
applied to a non-null postings entry it sets/overwrites the entry for
`doc.id` to `{ latest: doc.latest }` and returns the (content of the same)
mapping, preserving the entries of every other document id unchanged.  (The
source mutates the map in place and returns the same object; object identity
is not observable in this embedding, the returned content is.) -/
theorem reduceTermValue_merge_spec (indexDoc : IndexDoc) (m : Postings) :
    reduceTermValue none indexDoc = .ok [(indexDoc.id, ⟨indexDoc.latest⟩)]
    ∧ reduceTermValue (some (.postings m)) indexDoc
        = .ok (alistPut m indexDoc.id ⟨indexDoc.latest⟩)
    ∧ alistGet (alistPut m indexDoc.id ⟨indexDoc.latest⟩) indexDoc.id
        = some ⟨indexDoc.latest⟩
    ∧ ∀ k : String, k ≠ indexDoc.id →
        alistGet (alistPut m indexDoc.id ⟨indexDoc.latest⟩) k = alistGet m k :=
  ⟨rfl, rfl, alistGet_put_self _ _ _,
    fun _ hk => alistGet_put_ne _ _ _ _ (Ne.symm hk)⟩

/-- Witness for C1 at a concrete postings map: the entry of the other
document id "q" is preserved. -/
theorem reduceTermValue_merge_spec_witness :
    alistGet (alistPut [("q", (⟨7⟩ : IndexTermValue))] "p" ⟨5⟩) "q"
      = alistGet [("q", (⟨7⟩ : IndexTermValue))] "q" :=
  (reduceTermValue_merge_spec ⟨"p", "d", [], [], [], [], [], 5⟩
    [("q", ⟨7⟩)]).2.2.2 "q" (by decide)

/-- C7: for every document whose primary term set `terms` is empty,
`performIndexing` returns immediately (successfully) and performs zero store
writes, regardless of the contents of the other fields. -/
theorem performIndexing_empty_terms_noop (cfg : StoreCfg) (s : Store)
    (indexDoc : IndexDoc) (h : indexDoc.terms = []) :
    performIndexing cfg s (.ok (some indexDoc)) = (s, .ok ()) := by
  simp [performIndexing, h]

/-- Witness for C7: a document with empty `terms` but non-empty other fields
leaves a non-empty store untouched, even under a fault configuration. -/
theorem performIndexing_empty_terms_noop_witness :
    performIndexing ⟨["k"]⟩ [("k", StoreVal.pageId "p")]
        (.ok (some ⟨"p", "d", [], ["u"], ["ti"], ["v"], ["b"], 9⟩))
      = ([("k", StoreVal.pageId "p")], .ok ()) :=
  performIndexing_empty_terms_noop ⟨["k"]⟩ [("k", StoreVal.pageId "p")]
    ⟨"p", "d", [], ["u"], ["ti"], ["v"], ["b"], 9⟩ rfl

/-- C3: for every orchestration pass whose document has a non-empty primary
term set, any store-level failure during the page merge or the five
postings-family updates is caught (and logged) inside `performIndexing`'s
`try`/`catch`, and the pass still resolves successfully — for every fault
configuration the completion signal is `ok`. -/
theorem performIndexing_swallows_errors (cfg : StoreCfg) (s : Store)
    (indexDoc : IndexDoc) (h : indexDoc.terms ≠ []) :
    (performIndexing cfg s (.ok (some indexDoc))).2 = .ok () := by
  simp only [performIndexing, if_neg h]
  rcases hip : indexPage cfg s indexDoc with ⟨s1, r⟩
  cases r <;> simp

/-- Witness for C3: with a fault configuration that fails the very first
write (the page record put), the pass still reports success. -/
theorem performIndexing_swallows_errors_witness :
    (performIndexing ⟨["p1"]⟩ [] (.ok (some ⟨"p1", "d", ["t"], [], [], [], [], 5⟩))).2
      = .ok () :=
  performIndexing_swallows_errors ⟨["p1"]⟩ []
    ⟨"p1", "d", ["t"], [], [], [], [], 5⟩ (by decide)

/-- C4 counterexample: on a pipeline rejection, `addPageConcurrent` does
propagate the rejection and touches no store key, but — contrary to the
claim "without enqueuing any work on the write queue" — `indexQueue.push` is
called unconditionally, so one work item is enqueued. -/
theorem addPageConcurrent_pushes_on_rejection :
    (addPageConcurrent noFail [] (.error (.pipelineError "boom"))).queuePushes ≠ 0
    ∧ (addPageConcurrent noFail [] (.error (.pipelineError "boom"))).queuePushes = 1
    ∧ (addPageConcurrent noFail [] (.error (.pipelineError "boom"))).outcome
        = .error (.pipelineError "boom")
    ∧ (addPageConcurrent noFail [] (.error (.pipelineError "boom"))).store = [] := by
  refine ⟨by decide, rfl, rfl, rfl⟩

/-- C4 amended: for every request on which the pipeline rejects,
`addPageConcurrent` propagates the rejection to its caller and no store
mutation occurs; however, a work item is still pushed onto the write queue
unconditionally (the enqueued task performs no store writes, throwing on the
`undefined` document before any store access). -/
theorem addPageConcurrent_rejection_behavior (cfg : StoreCfg) (s : Store)
    (e : IndexErr) :
    addPageConcurrent cfg s (.error e) = ⟨1, s, .error e⟩ :=
  rfl

/-- C5 (code bug): `addBookmarkConcurrent("p1", 42)` with current time 999
writes the bookmark key built from the *current time* ("bookmark/999"), not
from the supplied timestamp — no "bookmark/42" entry is written — because the
queued task calls `addBookmark(pageId)` without forwarding `timestamp`,
contradicting the function's own JSDoc parameter. -/
theorem addBookmarkConcurrent_ignores_timestamp :
    addBookmarkConcurrent noFail 999
        [("p1", .record ⟨"p1", "d", ["t"], [], [], [], [], 5⟩)] "p1" (some 42)
      = ([("p1", .record ⟨"p1", "d", ["t"], [], [], [], ["bookmark/999"], 5⟩),
          ("bookmark/999", .pageId "p1")], .ok ())
    ∧ alistGet (addBookmarkConcurrent noFail 999
        [("p1", .record ⟨"p1", "d", ["t"], [], [], [], [], 5⟩)] "p1" (some 42)).1
        "bookmark/42" = none := by
  refine ⟨rfl, rfl⟩

/-- C6 counterexample: the stored record's `latest` is *not* the monotone
maximum across merges — re-indexing page "p1" (stored `latest` 200) with an
incoming document whose `latest` is 100 persists a record with `latest` 100,
a decrease. -/
theorem indexPage_latest_decrease_cex :
    indexPage noFail [("p1", .record ⟨"p1", "d", ["foo"], [], [], [], [], 200⟩)]
        ⟨"p1", "d", ["bar"], [], [], [], [], 100⟩
      = ([("p1", .record ⟨"p1", "d", ["foo", "bar"], [], [], [], [], 100⟩)],
         .ok ⟨"p1", "d", ["foo", "bar"], [], [], [], [], 100⟩) := by
  rfl

/-- C6 amended: `latest` is last-write-wins, not a running maximum — whenever
a stored record exists for the incoming document's id, the merged record that
`indexPage` persists and returns carries the *incoming* document's `latest`
(which may be smaller than the stored one). -/
theorem indexPage_latest_last_write (s : Store) (indexDoc existingDoc : IndexDoc)
    (h : singleLookup s indexDoc.id = some (.record existingDoc)) :
    ∃ M, indexPage noFail s indexDoc = (alistPut s indexDoc.id (.record M), .ok M)
      ∧ M.latest = indexDoc.latest := by
  refine ⟨mergeDoc existingDoc indexDoc, ?_, rfl⟩
  simp [indexPage, h, mergePage, augmentIndexLookupDoc, putE_noFail]

/-- Witness for the amended C6, at a stored `latest` of 3 and an incoming
`latest` of 1. -/
theorem indexPage_latest_last_write_witness :
    ∃ M, indexPage noFail [("p", .record ⟨"p", "d", ["a"], [], [], [], [], 3⟩)]
        ⟨"p", "d", ["b"], [], [], [], [], 1⟩
      = (alistPut [("p", .record ⟨"p", "d", ["a"], [], [], [], [], 3⟩)] "p"
          (.record M), .ok M)
      ∧ M.latest = 1 :=
  indexPage_latest_last_write _ ⟨"p", "d", ["b"], [], [], [], [], 1⟩
    ⟨"p", "d", ["a"], [], [], [], [], 3⟩ rfl

/-- C2: when a stored record exists for the incoming document's id,
`indexPage` persists and returns a record with the same id whose `terms`,
`titleTerms`, `visits` and `bookmarks` are the set-union of existing and
incoming, whose `urlTerms` is taken only from the incoming document, and
whose `domain` and `latest` come from the incoming document; when no record
exists the incoming document becomes the record verbatim. -/
theorem indexPage_merge_spec (s : Store) (indexDoc : IndexDoc) :
    (singleLookup s indexDoc.id = none →
      indexPage noFail s indexDoc
        = (alistPut s indexDoc.id (.record indexDoc), .ok indexDoc))
    ∧ (∀ e, singleLookup s indexDoc.id = some (.record e) →
        ∃ M, indexPage noFail s indexDoc
              = (alistPut s indexDoc.id (.record M), .ok M)
          ∧ M.id = indexDoc.id
          ∧ M.domain = indexDoc.domain
          ∧ M.latest = indexDoc.latest
          ∧ M.urlTerms = indexDoc.urlTerms
          ∧ (∀ x, x ∈ M.terms ↔ x ∈ e.terms ∨ x ∈ indexDoc.terms)
          ∧ (∀ x, x ∈ M.titleTerms ↔ x ∈ e.titleTerms ∨ x ∈ indexDoc.titleTerms)
          ∧ (∀ x, x ∈ M.visits ↔ x ∈ e.visits ∨ x ∈ indexDoc.visits)
          ∧ (∀ x, x ∈ M.bookmarks ↔ x ∈ e.bookmarks ∨ x ∈ indexDoc.bookmarks)) := by
  constructor
  · intro h
    simp [indexPage, h, mergePage, augmentIndexLookupDoc, putE_noFail]
  · intro e h
    refine ⟨mergeDoc e indexDoc, ?_, rfl, rfl, rfl, rfl,
      fun x => mem_setUnion _ _ _, fun x => mem_setUnion _ _ _,
      fun x => mem_setUnion _ _ _, fun x => mem_setUnion _ _ _⟩
    simp [indexPage, h, mergePage, augmentIndexLookupDoc, putE_noFail]

/-- Witness for C2, exercising the merge case on concrete documents. -/
theorem indexPage_merge_spec_witness :
    ∃ M, indexPage noFail
        [("p", .record ⟨"p", "od", ["a"], ["ou"], ["ot"], ["ov"], ["ob"], 7⟩)]
        ⟨"p", "d", ["b"], ["u"], ["t2"], ["v"], ["bk"], 3⟩
      = (alistPut [("p", .record ⟨"p", "od", ["a"], ["ou"], ["ot"], ["ov"], ["ob"], 7⟩)]
          "p" (.record M), .ok M)
      ∧ M.id = "p"
      ∧ M.domain = "d"
      ∧ M.latest = 3
      ∧ M.urlTerms = ["u"]
      ∧ (∀ x, x ∈ M.terms ↔ x ∈ ["a"] ∨ x ∈ ["b"])
      ∧ (∀ x, x ∈ M.titleTerms ↔ x ∈ ["ot"] ∨ x ∈ ["t2"])
      ∧ (∀ x, x ∈ M.visits ↔ x ∈ ["ov"] ∨ x ∈ ["v"])
      ∧ (∀ x, x ∈ M.bookmarks ↔ x ∈ ["ob"] ∨ x ∈ ["bk"]) :=
  (indexPage_merge_spec
      [("p", .record ⟨"p", "od", ["a"], ["ou"], ["ot"], ["ov"], ["ob"], 7⟩)]
      ⟨"p", "d", ["b"], ["u"], ["t2"], ["v"], ["bk"], 3⟩).2
    ⟨"p", "od", ["a"], ["ou"], ["ot"], ["ov"], ["ob"], 7⟩ rfl

/-- C8: `addBookmark` on a pageId with no stored value fails with the
"document not found" error and performs no store writes; on a pageId that
holds a stored value, no such error is ever raised (any failure there is a
store fault or a type error, never the not-found error, for any fault
configuration). -/
theorem addBookmark_precondition (cfg : StoreCfg) (s : Store) (pageId : String)
    (timestamp : Nat) :
    (singleLookup s pageId = none →
      addBookmark cfg s pageId timestamp = (s, .error (.notFound pageId)))
    ∧ (∀ v, singleLookup s pageId = some v →
        ∀ p, (addBookmark cfg s pageId timestamp).2 ≠ .error (.notFound p)) := by
  constructor
  · intro h
    simp [addBookmark, h]
  · intro v h p
    by_cases h1 : bookmarkKey timestamp ∈ cfg.failPuts
    · simp [addBookmark, h, putE, h1]
    · cases v with
      | record d =>
        by_cases h2 : pageId ∈ cfg.failPuts
        · simp [addBookmark, h, putE, h1, h2]
        · simp [addBookmark, h, putE, h1, h2]
      | postings m => simp [addBookmark, h, putE, h1]
      | pageId q => simp [addBookmark, h, putE, h1]

/-- Witness for C8: a missing pageId fails with not-found and leaves the
store empty; a present pageId never reports not-found. -/
theorem addBookmark_precondition_witness :
    addBookmark noFail [] "p" 5 = ([], .error (.notFound "p"))
    ∧ (addBookmark noFail [("p", .record ⟨"p", "d", ["t"], [], [], [], [], 1⟩)]
        "p" 5).2 ≠ .error (.notFound "p") :=
  ⟨(addBookmark_precondition noFail [] "p" 5).1 rfl,
   (addBookmark_precondition noFail
       [("p", .record ⟨"p", "d", ["t"], [], [], [], [], 1⟩)] "p" 5).2
     (.record ⟨"p", "d", ["t"], [], [], [], [], 1⟩) rfl "p"⟩

/-- C10: for a pageId holding a stored record and a fixed timestamp, running
`addBookmark` twice leaves the store exactly as running it once: the reverse
timestamp entry maps the bookmark key to the pageId, and the record's
bookmark `Set` gains the key only once (`Set.add` of a present element is a
no-op). -/
theorem addBookmark_idempotent (s : Store) (pageId : String) (timestamp : Nat)
    (d : IndexDoc)
    (hrec : singleLookup s pageId = some (.record d))
    (hne : pageId ≠ bookmarkKey timestamp) :
    addBookmark noFail ((addBookmark noFail s pageId timestamp).1) pageId timestamp
      = addBookmark noFail s pageId timestamp
    ∧ alistGet (addBookmark noFail s pageId timestamp).1 (bookmarkKey timestamp)
        = some (.pageId pageId)
    ∧ alistGet (addBookmark noFail s pageId timestamp).1 pageId
        = some (.record
            { d with bookmarks := setAdd d.bookmarks (bookmarkKey timestamp) }) := by
  have hrun : addBookmark noFail s pageId timestamp
      = (alistPut (alistPut s (bookmarkKey timestamp) (.pageId pageId)) pageId
          (.record { d with bookmarks := setAdd d.bookmarks (bookmarkKey timestamp) }),
         .ok ()) := by
    simp [addBookmark, hrec, putE_noFail]
  have hgbk : alistGet (addBookmark noFail s pageId timestamp).1 (bookmarkKey timestamp)
      = some (.pageId pageId) := by
    rw [hrun]
    rw [alistGet_put_ne _ _ _ _ hne]
    exact alistGet_put_self _ _ _
  have hgpid : alistGet (addBookmark noFail s pageId timestamp).1 pageId
      = some (.record
          { d with bookmarks := setAdd d.bookmarks (bookmarkKey timestamp) }) := by
    rw [hrun]
    exact alistGet_put_self _ _ _
  refine ⟨?_, hgbk, hgpid⟩
  have hmem : bookmarkKey timestamp ∈ setAdd d.bookmarks (bookmarkKey timestamp) :=
    (mem_setAdd _ _ _).mpr (Or.inr rfl)
  have hsa : setAdd (setAdd d.bookmarks (bookmarkKey timestamp)) (bookmarkKey timestamp)
      = setAdd d.bookmarks (bookmarkKey timestamp) := setAdd_of_mem hmem
  have hsnd : (addBookmark noFail s pageId timestamp).2 = .ok () := by
    rw [hrun]
  have hstep : ∀ s1 : Store,
      alistGet s1 pageId
          = some (.record
              { d with bookmarks := setAdd d.bookmarks (bookmarkKey timestamp) }) →
      alistGet s1 (bookmarkKey timestamp) = some (.pageId pageId) →
      addBookmark noFail s1 pageId timestamp = (s1, .ok ()) := by
    intro s1 h1 h2
    simp only [addBookmark, singleLookup, h1, putE_noFail]
    rw [alistPut_of_get _ _ _ h2]
    rw [hsa]
    rw [alistPut_of_get _ _ _ h1]
  rw [hstep _ hgpid hgbk]
  exact Prod.ext rfl hsnd.symm

/-- Witness for C10 on a concrete store and timestamp. -/
theorem addBookmark_idempotent_witness :
    addBookmark noFail ((addBookmark noFail
        [("p", .record ⟨"p", "d", ["t"], [], [], [], [], 1⟩)] "p" 4).1) "p" 4
      = addBookmark noFail [("p", .record ⟨"p", "d", ["t"], [], [], [], [], 1⟩)] "p" 4
    ∧ alistGet (addBookmark noFail
        [("p", .record ⟨"p", "d", ["t"], [], [], [], [], 1⟩)] "p" 4).1
        (bookmarkKey 4) = some (.pageId "p")
    ∧ alistGet (addBookmark noFail
        [("p", .record ⟨"p", "d", ["t"], [], [], [], [], 1⟩)] "p" 4).1 "p"
      = some (.record { (⟨"p", "d", ["t"], [], [], [], [], 1⟩ : IndexDoc) with
          bookmarks := setAdd [] (bookmarkKey 4) }) :=
  addBookmark_idempotent [("p", .record ⟨"p", "d", ["t"], [], [], [], [], 1⟩)]
    "p" 4 ⟨"p", "d", ["t"], [], [], [], [], 1⟩ rfl (by decide)

/-! ## Batched-put lemmas -/

theorem foldPut_cons (s : Store) (p : String × StoreVal) (b : List (String × StoreVal)) :
    foldPut s (p :: b) = foldPut (alistPut s p.1 p.2) b :=
  rfl

theorem foldPut_get_notin (s : Store) (b : List (String × StoreVal)) (k : String)
    (h : k ∉ b.map Prod.fst) : alistGet (foldPut s b) k = alistGet s k := by
  induction b generalizing s with
  | nil => rfl
  | cons hd tl ih =>
    simp only [List.map_cons, List.mem_cons, not_or] at h
    rw [foldPut_cons, ih _ h.2]
    exact alistGet_put_ne _ _ _ _ fun he => h.1 he.symm

theorem foldPut_get_mem (s : Store) (b : List (String × StoreVal)) (k : String)
    (v : StoreVal) (hnd : (b.map Prod.fst).Nodup) (hmem : (k, v) ∈ b) :
    alistGet (foldPut s b) k = some v := by
  induction b generalizing s with
  | nil => cases hmem
  | cons hd tl ih =>
    rw [List.map_cons] at hnd
    have hnd1 : hd.1 ∉ tl.map Prod.fst := (List.nodup_cons.mp hnd).1
    have hnd2 : (tl.map Prod.fst).Nodup := (List.nodup_cons.mp hnd).2
    rw [foldPut_cons]
    rcases List.mem_cons.mp hmem with heq | htl
    · subst heq
      rw [foldPut_get_notin _ _ _ hnd1]
      exact alistGet_put_self _ _ _
    · exact ih _ hnd2 htl

theorem foldPut_noop (s : Store) (b : List (String × StoreVal))
    (h : ∀ p ∈ b, alistGet s p.1 = some p.2) : foldPut s b = s := by
  induction b with
  | nil => rfl
  | cons hd tl ih =>
    rw [foldPut_cons, alistPut_of_get _ _ _ (h hd (List.mem_cons_self _ _))]
    exact ih fun p hp => h p (List.mem_cons_of_mem _ hp)

/-! ## `reduceTermValue` lemmas -/

theorem reduceTermValue_ok_of_typed (c : Option StoreVal) (d : IndexDoc)
    (h : typedPostings c) :
    ∃ p, reduceTermValue c d = .ok p ∧ alistPut p d.id ⟨d.latest⟩ = p := by
  match c with
  | none => exact ⟨[(d.id, ⟨d.latest⟩)], rfl, by simp [alistPut]⟩
  | some (.postings m) =>
    exact ⟨alistPut m d.id ⟨d.latest⟩, rfl, alistPut_put _ _ _ _⟩
  | some (.record _) => exact h.elim
  | some (.pageId _) => exact h.elim

theorem reduceTermValue_of_reduced (p : Postings) (d : IndexDoc)
    (h : alistPut p d.id ⟨d.latest⟩ = p) :
    reduceTermValue (some (.postings p)) d = .ok p := by
  simp [reduceTermValue, h]

/-! ## Term-family indexer lemmas -/

theorem buildTermBatch_of_typed (d : IndexDoc) (L : List String) (s : Store)
    (hty : ∀ t ∈ L, typedPostings (alistGet s t)) :
    ∃ b, buildTermBatch d (lookupByKeys s L) = .ok b
      ∧ b.map Prod.fst = L
      ∧ ∀ t v, (t, v) ∈ b → ∃ p, v = .postings p ∧ alistPut p d.id ⟨d.latest⟩ = p
          ∧ reduceTermValue (alistGet s t) d = .ok p := by
  induction L with
  | nil => exact ⟨[], rfl, rfl, by simp⟩
  | cons hd tl ih =>
    obtain ⟨p, hp, hidem⟩ :=
      reduceTermValue_ok_of_typed _ d (hty hd (List.mem_cons_self _ _))
    obtain ⟨b, hb, hkeys, hvals⟩ := ih fun t ht => hty t (List.mem_cons_of_mem _ ht)
    refine ⟨(hd, .postings p) :: b, ?_, by simp [hkeys], ?_⟩
    · have hlk : lookupByKeys s (hd :: tl)
          = (hd, alistGet s hd) :: lookupByKeys s tl := rfl
      rw [hlk]
      simp only [buildTermBatch, hp, hb]
    · intro t v hm
      rcases List.mem_cons.mp hm with heq | htl
      · have ht : t = hd := congrArg Prod.fst heq
        have hv : v = .postings p := congrArg Prod.snd heq
        exact ⟨p, hv, hidem, by rw [ht]; exact hp⟩
      · exact hvals t v htl

theorem initIndexTerms_run (field : IndexDoc → List String) (tk : String)
    (s : Store) (d : IndexDoc)
    (hty : ∀ t ∈ field d, typedPostings (alistGet s t)) :
    ∃ b, initIndexTerms field tk noFail s d = (foldPut s b, .ok ())
      ∧ b.map Prod.fst = field d
      ∧ ∀ t v, (t, v) ∈ b → ∃ p, v = .postings p ∧ alistPut p d.id ⟨d.latest⟩ = p
          ∧ reduceTermValue (alistGet s t) d = .ok p := by
  by_cases hL : field d = []
  · refine ⟨[], ?_, by simp [hL], by simp⟩
    simp [initIndexTerms, hL, foldPut]
  · obtain ⟨b, hb, hkeys, hvals⟩ := buildTermBatch_of_typed d (field d) s hty
    refine ⟨b, ?_, hkeys, hvals⟩
    have hchoice : (if (field d).length > termsSizeLimit
        then termRangeLookup tk s (field d) else lookupByKeys s (field d))
        = lookupByKeys s (field d) := by
      split <;> rfl
    simp only [initIndexTerms, if_neg hL, hchoice, hb, batchCommit_noFail]

theorem initIndexTerms_frame (field : IndexDoc → List String) (tk : String)
    (s : Store) (d : IndexDoc) (k : String)
    (hty : ∀ t ∈ field d, typedPostings (alistGet s t)) (hk : k ∉ field d) :
    alistGet (initIndexTerms field tk noFail s d).1 k = alistGet s k := by
  obtain ⟨b, hb, hkeys, _⟩ := initIndexTerms_run field tk s d hty
  rw [hb]
  exact foldPut_get_notin _ _ _ (by rw [hkeys]; exact hk)

theorem initIndexTerms_get (field : IndexDoc → List String) (tk : String)
    (s : Store) (d : IndexDoc) (t : String)
    (hty : ∀ t ∈ field d, typedPostings (alistGet s t))
    (hnd : (field d).Nodup) (ht : t ∈ field d) :
    ∃ p, alistGet (initIndexTerms field tk noFail s d).1 t = some (.postings p)
      ∧ alistPut p d.id ⟨d.latest⟩ = p := by
  obtain ⟨b, hb, hkeys, hvals⟩ := initIndexTerms_run field tk s d hty
  have htb : t ∈ b.map Prod.fst := by rw [hkeys]; exact ht
  obtain ⟨q, hq, hqt⟩ := List.mem_map.mp htb
  obtain ⟨p, hv, hidem, _⟩ := hvals q.1 q.2 (by rwa [show (q.1, q.2) = q from rfl])
  refine ⟨p, ?_, hidem⟩
  rw [hb]
  have : alistGet (foldPut s b) q.1 = some q.2 :=
    foldPut_get_mem _ _ _ _ (by rw [hkeys]; exact hnd)
      (by rwa [show (q.1, q.2) = q from rfl])
  rw [← hqt, this, hv]

theorem initIndexTerms_replay (field : IndexDoc → List String) (tk : String)
    (s : Store) (d : IndexDoc)
    (h : ∀ t ∈ field d, ∃ p, alistGet s t = some (.postings p)
        ∧ alistPut p d.id ⟨d.latest⟩ = p) :
    initIndexTerms field tk noFail s d = (s, .ok ()) := by
  have hty : ∀ t ∈ field d, typedPostings (alistGet s t) := by
    intro t ht
    obtain ⟨p, hp, _⟩ := h t ht
    rw [hp]
    trivial
  obtain ⟨b, hb, hkeys, hvals⟩ := initIndexTerms_run field tk s d hty
  rw [hb]
  have hnoop : foldPut s b = s := by
    apply foldPut_noop
    intro q hq
    obtain ⟨p, hv, _, hred⟩ := hvals q.1 q.2 (by rwa [show (q.1, q.2) = q from rfl])
    have hqmem : q.1 ∈ field d := by
      rw [← hkeys]
      exact List.mem_map.mpr ⟨q, hq, rfl⟩
    obtain ⟨p', hp', hidem'⟩ := h q.1 hqmem
    have : reduceTermValue (alistGet s q.1) d = .ok p' := by
      rw [hp']
      exact reduceTermValue_of_reduced _ _ hidem'
    have hpp : p = p' := by
      rw [hred] at this
      exact (Except.ok.injEq _ _).mp this
    rw [hp', hv, hpp]
  rw [hnoop]

/-! ## Timestamp-indexer lemmas -/

theorem filterMap_if_eq {α β : Type} (p : α → Prop) [DecidablePred p]
    (g : α → β) (l : List α) :
    l.filterMap (fun x => if p x then some (g x) else none)
      = (l.filter (fun x => decide (p x))).map g := by
  induction l with
  | nil => rfl
  | cons hd tl ih =>
    rw [List.filterMap_cons, List.filter_cons]
    by_cases h : p hd
    · rw [if_pos h, ih]
      simp [h]
    · rw [if_neg h, ih]
      simp [h]

theorem ts_batch_eq (s : Store) (pid : String) (K : List String) :
    (lookupByKeys s K).filterMap (fun kv =>
        if kv.2 ≠ some (.pageId pid) then some (kv.1, StoreVal.pageId pid) else none)
      = (K.filter (fun k => alistGet s k ≠ some (.pageId pid))).map
          (fun k => (k, StoreVal.pageId pid)) := by
  show (List.filterMap _ (K.map fun k => (k, alistGet s k))) = _
  rw [List.filterMap_map]
  exact filterMap_if_eq (fun k => alistGet s k ≠ some (.pageId pid))
    (fun k => (k, StoreVal.pageId pid)) K

theorem indexMetaTimestamps_run (s : Store) (d : IndexDoc)
    (hnd : (d.bookmarks ++ d.visits).Nodup) :
    (indexMetaTimestamps noFail s d).2 = .ok ()
    ∧ (∀ k ∈ d.bookmarks ++ d.visits,
        alistGet (indexMetaTimestamps noFail s d).1 k = some (.pageId d.id))
    ∧ (∀ k, k ∉ d.bookmarks ++ d.visits →
        alistGet (indexMetaTimestamps noFail s d).1 k = alistGet s k) := by
  have hrun : indexMetaTimestamps noFail s d
      = (foldPut s
          (((d.bookmarks ++ d.visits).filter
              (fun k => alistGet s k ≠ some (.pageId d.id))).map
            (fun k => (k, StoreVal.pageId d.id))), .ok ()) := by
    rw [indexMetaTimestamps, ts_batch_eq, batchCommit_noFail]
  have hbkeys : ((((d.bookmarks ++ d.visits).filter
          (fun k => alistGet s k ≠ some (.pageId d.id))).map
        (fun k => (k, StoreVal.pageId d.id))).map Prod.fst)
      = (d.bookmarks ++ d.visits).filter
          (fun k => alistGet s k ≠ some (.pageId d.id)) := by
    rw [List.map_map]
    rw [show (Prod.fst ∘ fun k : String => (k, StoreVal.pageId d.id))
      = fun k => k from rfl]
    exact List.map_id' _
  refine ⟨by rw [hrun], ?_, ?_⟩
  · intro k hk
    rw [hrun]
    by_cases h : alistGet s k = some (.pageId d.id)
    · have hknotin : k ∉ (d.bookmarks ++ d.visits).filter
          (fun k => alistGet s k ≠ some (.pageId d.id)) := by
        intro hmem
        exact absurd h (by simpa using (List.mem_filter.mp hmem).2)
      rw [foldPut_get_notin _ _ _ (by rw [hbkeys]; exact hknotin)]
      exact h
    · apply foldPut_get_mem
      · rw [hbkeys]
        exact List.Nodup.filter _ hnd
      · exact List.mem_map.mpr
          ⟨k, List.mem_filter.mpr ⟨hk, by simpa using h⟩, rfl⟩
  · intro k hk
    rw [hrun]
    apply foldPut_get_notin
    rw [hbkeys]
    intro hmem
    exact hk (List.mem_filter.mp hmem).1

theorem indexMetaTimestamps_replay (s : Store) (d : IndexDoc)
    (h : ∀ k ∈ d.bookmarks ++ d.visits, alistGet s k = some (.pageId d.id)) :
    indexMetaTimestamps noFail s d = (s, .ok ()) := by
  rw [indexMetaTimestamps, ts_batch_eq]
  have hfil : (d.bookmarks ++ d.visits).filter
      (fun k => alistGet s k ≠ some (.pageId d.id)) = [] :=
    List.filter_eq_nil_iff.mpr fun k hk => by simp [h k hk]
  rw [hfil]
  simp [batchCommit_noFail, foldPut]

/-! ## Domain-indexer lemmas -/

theorem indexDomain_run (s : Store) (d : IndexDoc)
    (hty : typedPostings (alistGet s d.domain)) :
    ∃ p, indexDomain noFail s d = (alistPut s d.domain (.postings p), .ok ())
      ∧ alistPut p d.id ⟨d.latest⟩ = p := by
  obtain ⟨p, hp, hidem⟩ := reduceTermValue_ok_of_typed _ d hty
  refine ⟨p, ?_, hidem⟩
  simp only [indexDomain, singleLookup, hp, putE_noFail]

theorem indexDomain_replay (s : Store) (d : IndexDoc) (p : Postings)
    (hget : alistGet s d.domain = some (.postings p))
    (hidem : alistPut p d.id ⟨d.latest⟩ = p) :
    indexDomain noFail s d = (s, .ok ()) := by
  simp only [indexDomain, singleLookup, hget, reduceTermValue, hidem, putE_noFail]
  rw [alistPut_of_get _ _ _ hget]

/-! ## Page-merge lemmas -/

theorem indexDoc_fields_ext (a b : IndexDoc)
    (h1 : a.id = b.id) (h2 : a.domain = b.domain) (h3 : a.terms = b.terms)
    (h4 : a.urlTerms = b.urlTerms) (h5 : a.titleTerms = b.titleTerms)
    (h6 : a.visits = b.visits) (h7 : a.bookmarks = b.bookmarks)
    (h8 : a.latest = b.latest) : a = b := by
  cases a
  cases b
  simp_all

theorem mergePage_facts (c : Option StoreVal) (doc M : IndexDoc)
    (hM : mergePage c doc = .ok M)
    (hnd1 : doc.terms.Nodup) (hnd3 : doc.titleTerms.Nodup)
    (hnd4 : doc.visits.Nodup) (hnd5 : doc.bookmarks.Nodup) :
    M.id = doc.id ∧ M.domain = doc.domain ∧ M.urlTerms = doc.urlTerms
    ∧ M.latest = doc.latest
    ∧ M.terms.Nodup ∧ M.titleTerms.Nodup ∧ M.visits.Nodup ∧ M.bookmarks.Nodup
    ∧ (∀ x ∈ doc.terms, x ∈ M.terms) ∧ (∀ x ∈ doc.titleTerms, x ∈ M.titleTerms)
    ∧ (∀ x ∈ doc.visits, x ∈ M.visits)
    ∧ (∀ x ∈ doc.bookmarks, x ∈ M.bookmarks) := by
  unfold mergePage augmentIndexLookupDoc at hM
  split at hM
  · injection hM with h
    subst h
    exact ⟨rfl, rfl, rfl, rfl, hnd1, hnd3, hnd4, hnd5,
      fun x h => h, fun x h => h, fun x h => h, fun x h => h⟩
  · injection hM with h
    subst h
    exact ⟨rfl, rfl, rfl, rfl, hnd1, hnd3, hnd4, hnd5,
      fun x h => h, fun x h => h, fun x h => h, fun x h => h⟩
  · injection hM with h
    subst h
    exact ⟨rfl, rfl, rfl, rfl, setUnion_nodup _ _, setUnion_nodup _ _,
      setUnion_nodup _ _, setUnion_nodup _ _,
      fun x hx => (mem_setUnion _ _ _).mpr (Or.inr hx),
      fun x hx => (mem_setUnion _ _ _).mpr (Or.inr hx),
      fun x hx => (mem_setUnion _ _ _).mpr (Or.inr hx),
      fun x hx => (mem_setUnion _ _ _).mpr (Or.inr hx)⟩
  · simp at hM

theorem mergeDoc_self (doc M : IndexDoc)
    (hid : doc.id = M.id) (hdm : doc.domain = M.domain)
    (hurl : doc.urlTerms = M.urlTerms) (hlat : doc.latest = M.latest)
    (hnd1 : M.terms.Nodup) (hnd2 : M.titleTerms.Nodup)
    (hnd3 : M.visits.Nodup) (hnd4 : M.bookmarks.Nodup)
    (hs1 : ∀ x ∈ doc.terms, x ∈ M.terms)
    (hs2 : ∀ x ∈ doc.titleTerms, x ∈ M.titleTerms)
    (hs3 : ∀ x ∈ doc.visits, x ∈ M.visits)
    (hs4 : ∀ x ∈ doc.bookmarks, x ∈ M.bookmarks) :
    mergeDoc M doc = M := by
  apply indexDoc_fields_ext
  · exact hid
  · exact hdm
  · exact setUnion_absorb hnd1 hs1
  · exact hurl
  · exact setUnion_absorb hnd2 hs2
  · exact setUnion_absorb hnd3 hs3
  · exact setUnion_absorb hnd4 hs4
  · exact hlat

/-! ## The five-indexer chain -/

theorem runIndexers_chain (s0 : Store) (M : IndexDoc)
    (hrec : alistGet s0 M.id = some (.record M))
    (hndU : M.urlTerms.Nodup) (hndT : M.titleTerms.Nodup) (hndM : M.terms.Nodup)
    (hndK : (M.bookmarks ++ M.visits).Nodup)
    (hid1 : M.id ∉ M.terms) (hid2 : M.id ∉ M.urlTerms) (hid3 : M.id ∉ M.titleTerms)
    (hidK : M.id ∉ M.bookmarks ++ M.visits) (hid6 : M.id ≠ M.domain)
    (hdm1 : M.domain ∉ M.terms) (hdm2 : M.domain ∉ M.urlTerms)
    (hdm3 : M.domain ∉ M.titleTerms)
    (hf1 : ∀ t ∈ M.urlTerms, t ∉ M.titleTerms)
    (hf2 : ∀ t ∈ M.urlTerms, t ∉ M.terms)
    (hf3 : ∀ t ∈ M.titleTerms, t ∉ M.terms)
    (htsK : ∀ k ∈ M.bookmarks ++ M.visits,
        k ∉ M.terms ∧ k ∉ M.urlTerms ∧ k ∉ M.titleTerms ∧ k ≠ M.domain)
    (hty0 : typedPostings (alistGet s0 M.domain))
    (hty1 : ∀ t ∈ M.terms, typedPostings (alistGet s0 t))
    (hty2 : ∀ t ∈ M.urlTerms, typedPostings (alistGet s0 t))
    (hty3 : ∀ t ∈ M.titleTerms, typedPostings (alistGet s0 t)) :
    alistGet (runIndexers noFail s0 M).1 M.id = some (.record M)
    ∧ (∃ p, alistGet (runIndexers noFail s0 M).1 M.domain = some (.postings p)
        ∧ alistPut p M.id ⟨M.latest⟩ = p)
    ∧ (∀ t ∈ M.urlTerms, ∃ p,
        alistGet (runIndexers noFail s0 M).1 t = some (.postings p)
        ∧ alistPut p M.id ⟨M.latest⟩ = p)
    ∧ (∀ t ∈ M.titleTerms, ∃ p,
        alistGet (runIndexers noFail s0 M).1 t = some (.postings p)
        ∧ alistPut p M.id ⟨M.latest⟩ = p)
    ∧ (∀ t ∈ M.terms, ∃ p,
        alistGet (runIndexers noFail s0 M).1 t = some (.postings p)
        ∧ alistPut p M.id ⟨M.latest⟩ = p)
    ∧ (∀ k ∈ M.bookmarks ++ M.visits,
        alistGet (runIndexers noFail s0 M).1 k = some (.pageId M.id)) := by
  -- stage 1: domain
  obtain ⟨pD, hD1, hDidem⟩ := indexDomain_run s0 M hty0
  obtain ⟨sD, hsDdef⟩ : ∃ x, (indexDomain noFail s0 M).1 = x := ⟨_, rfl⟩
  have hsD : sD = alistPut s0 M.domain (.postings pD) := by
    rw [← hsDdef, hD1]
  have gD_ne : ∀ k, k ≠ M.domain → alistGet sD k = alistGet s0 k := by
    intro k hk
    rw [hsD]
    exact alistGet_put_ne _ _ _ _ fun he => hk he.symm
  have gD_dom : alistGet sD M.domain = some (.postings pD) := by
    rw [hsD]
    exact alistGet_put_self _ _ _
  -- stage 2: urlTerms
  have htyU : ∀ t ∈ M.urlTerms, typedPostings (alistGet sD t) := by
    intro t ht
    rw [gD_ne t fun he => hdm2 (he ▸ ht)]
    exact hty2 t ht
  obtain ⟨bU, hU1, hUkeys, _⟩ :=
    initIndexTerms_run (fun d => d.urlTerms) "url/" sD M htyU
  obtain ⟨sU, hsUdef⟩ :
      ∃ x, (initIndexTerms (fun d => d.urlTerms) "url/" noFail sD M).1 = x :=
    ⟨_, rfl⟩
  have hsU : sU = foldPut sD bU := by
    rw [← hsUdef, hU1]
  have gU_ne : ∀ k, k ∉ M.urlTerms → alistGet sU k = alistGet sD k := by
    intro k hk
    rw [hsU]
    exact foldPut_get_notin _ _ _ (by rw [hUkeys]; exact hk)
  have gU_get : ∀ t ∈ M.urlTerms, ∃ p, alistGet sU t = some (.postings p)
      ∧ alistPut p M.id ⟨M.latest⟩ = p := by
    intro t ht
    obtain ⟨p, hp, hidem⟩ :=
      initIndexTerms_get (fun d => d.urlTerms) "url/" sD M t htyU hndU ht
    exact ⟨p, by rw [← hsUdef]; exact hp, hidem⟩
  -- stage 3: titleTerms
  have htyT : ∀ t ∈ M.titleTerms, typedPostings (alistGet sU t) := by
    intro t ht
    rw [gU_ne t fun hmem => hf1 t hmem ht, gD_ne t fun he => hdm3 (he ▸ ht)]
    exact hty3 t ht
  obtain ⟨bT, hT1, hTkeys, _⟩ :=
    initIndexTerms_run (fun d => d.titleTerms) "title/" sU M htyT
  obtain ⟨sT, hsTdef⟩ :
      ∃ x, (initIndexTerms (fun d => d.titleTerms) "title/" noFail sU M).1 = x :=
    ⟨_, rfl⟩
  have hsT : sT = foldPut sU bT := by
    rw [← hsTdef, hT1]
  have gT_ne : ∀ k, k ∉ M.titleTerms → alistGet sT k = alistGet sU k := by
    intro k hk
    rw [hsT]
    exact foldPut_get_notin _ _ _ (by rw [hTkeys]; exact hk)
  have gT_get : ∀ t ∈ M.titleTerms, ∃ p, alistGet sT t = some (.postings p)
      ∧ alistPut p M.id ⟨M.latest⟩ = p := by
    intro t ht
    obtain ⟨p, hp, hidem⟩ :=
      initIndexTerms_get (fun d => d.titleTerms) "title/" sU M t htyT hndT ht
    exact ⟨p, by rw [← hsTdef]; exact hp, hidem⟩
  -- stage 4: terms
  have htyM : ∀ t ∈ M.terms, typedPostings (alistGet sT t) := by
    intro t ht
    rw [gT_ne t fun hmem => hf3 t hmem ht,
      gU_ne t fun hmem => hf2 t hmem ht,
      gD_ne t fun he => hdm1 (he ▸ ht)]
    exact hty1 t ht
  obtain ⟨bM, hTe1, hTekeys, _⟩ :=
    initIndexTerms_run (fun d => d.terms) "term/" sT M htyM
  obtain ⟨sM2, hsMdef⟩ :
      ∃ x, (initIndexTerms (fun d => d.terms) "term/" noFail sT M).1 = x :=
    ⟨_, rfl⟩
  have hsM : sM2 = foldPut sT bM := by
    rw [← hsMdef, hTe1]
  have gM_ne : ∀ k, k ∉ M.terms → alistGet sM2 k = alistGet sT k := by
    intro k hk
    rw [hsM]
    exact foldPut_get_notin _ _ _ (by rw [hTekeys]; exact hk)
  have gM_get : ∀ t ∈ M.terms, ∃ p, alistGet sM2 t = some (.postings p)
      ∧ alistPut p M.id ⟨M.latest⟩ = p := by
    intro t ht
    obtain ⟨p, hp, hidem⟩ :=
      initIndexTerms_get (fun d => d.terms) "term/" sT M t htyM hndM ht
    exact ⟨p, by rw [← hsMdef]; exact hp, hidem⟩
  -- stage 5: timestamps
  obtain ⟨-, tsget, tsframe⟩ := indexMetaTimestamps_run sM2 M hndK
  -- the final store of the whole fan-out
  have hfinal : (runIndexers noFail s0 M).1 = (indexMetaTimestamps noFail sM2 M).1 := by
    simp only [runIndexers, indexUrlTerms, indexTitleTerms, indexTerms]
    rw [hsDdef, hsUdef, hsTdef, hsMdef]
  rw [hfinal]
  refine ⟨?_, ?_, ?_, ?_, ?_, ?_⟩
  · rw [tsframe M.id hidK, gM_ne M.id hid1, gT_ne M.id hid3, gU_ne M.id hid2,
      gD_ne M.id hid6]
    exact hrec
  · refine ⟨pD, ?_, hDidem⟩
    rw [tsframe M.domain fun hmem => (htsK _ hmem).2.2.2 rfl,
      gM_ne M.domain hdm1, gT_ne M.domain hdm3, gU_ne M.domain hdm2]
    exact gD_dom
  · intro t ht
    obtain ⟨p, hp, hidem⟩ := gU_get t ht
    refine ⟨p, ?_, hidem⟩
    rw [tsframe t fun hmem => (htsK _ hmem).2.1 ht,
      gM_ne t (hf2 t ht), gT_ne t (hf1 t ht)]
    exact hp
  · intro t ht
    obtain ⟨p, hp, hidem⟩ := gT_get t ht
    refine ⟨p, ?_, hidem⟩
    rw [tsframe t fun hmem => (htsK _ hmem).2.2.1 ht, gM_ne t (hf3 t ht)]
    exact hp
  · intro t ht
    obtain ⟨p, hp, hidem⟩ := gM_get t ht
    refine ⟨p, ?_, hidem⟩
    rw [tsframe t fun hmem => (htsK _ hmem).1 ht]
    exact hp
  · exact tsget

theorem runIndexers_replay (s1 : Store) (M : IndexDoc)
    (hdomr : ∃ p, alistGet s1 M.domain = some (.postings p)
        ∧ alistPut p M.id ⟨M.latest⟩ = p)
    (hurl : ∀ t ∈ M.urlTerms, ∃ p, alistGet s1 t = some (.postings p)
        ∧ alistPut p M.id ⟨M.latest⟩ = p)
    (htit : ∀ t ∈ M.titleTerms, ∃ p, alistGet s1 t = some (.postings p)
        ∧ alistPut p M.id ⟨M.latest⟩ = p)
    (hter : ∀ t ∈ M.terms, ∃ p, alistGet s1 t = some (.postings p)
        ∧ alistPut p M.id ⟨M.latest⟩ = p)
    (hK : ∀ k ∈ M.bookmarks ++ M.visits, alistGet s1 k = some (.pageId M.id)) :
    runIndexers noFail s1 M = (s1, .ok ()) := by
  obtain ⟨p, hp, hidem⟩ := hdomr
  have h1 : indexDomain noFail s1 M = (s1, .ok ()) :=
    indexDomain_replay _ _ _ hp hidem
  have h2 : initIndexTerms (fun d => d.urlTerms) "url/" noFail s1 M = (s1, .ok ()) :=
    initIndexTerms_replay _ _ _ _ hurl
  have h3 : initIndexTerms (fun d => d.titleTerms) "title/" noFail s1 M = (s1, .ok ()) :=
    initIndexTerms_replay _ _ _ _ htit
  have h4 : initIndexTerms (fun d => d.terms) "term/" noFail s1 M = (s1, .ok ()) :=
    initIndexTerms_replay _ _ _ _ hter
  have h5 : indexMetaTimestamps noFail s1 M = (s1, .ok ()) :=
    indexMetaTimestamps_replay _ _ hK
  simp [runIndexers, indexUrlTerms, indexTitleTerms, indexTerms,
    h1, h2, h3, h4, h5, firstErr]

/-- C9: running the full indexing pass (`performIndexing`) on the same
Document twice yields a store — and in particular postings entries for the
term, urlTerm, titleTerm and domain families — identical to running it once:
the per-document-id merge is idempotent.  `M` is the record the first pass
merges and persists; the hypotheses state the JS `Set` typing of the
document's fields, the well-typedness of the postings slots read, and the
key-space disjointness of id, domain, term-family and timestamp keys (the
"normal case" key-space assumption of the design, §5). -/
theorem performIndexing_idempotent (s : Store) (doc M : IndexDoc)
    (hM : mergePage (singleLookup s doc.id) doc = .ok M)
    (hnd1 : doc.terms.Nodup) (hnd2 : doc.urlTerms.Nodup)
    (hnd3 : doc.titleTerms.Nodup) (hnd4 : doc.visits.Nodup)
    (hnd5 : doc.bookmarks.Nodup)
    (hid1 : M.id ∉ M.terms) (hid2 : M.id ∉ M.urlTerms)
    (hid3 : M.id ∉ M.titleTerms) (hidK : M.id ∉ M.bookmarks ++ M.visits)
    (hid6 : M.id ≠ M.domain)
    (hdm1 : M.domain ∉ M.terms) (hdm2 : M.domain ∉ M.urlTerms)
    (hdm3 : M.domain ∉ M.titleTerms)
    (hf1 : ∀ t ∈ M.urlTerms, t ∉ M.titleTerms)
    (hf2 : ∀ t ∈ M.urlTerms, t ∉ M.terms)
    (hf3 : ∀ t ∈ M.titleTerms, t ∉ M.terms)
    (htsK : ∀ k ∈ M.bookmarks ++ M.visits,
        k ∉ M.terms ∧ k ∉ M.urlTerms ∧ k ∉ M.titleTerms ∧ k ≠ M.domain)
    (htsd : ∀ k ∈ M.bookmarks, k ∉ M.visits)
    (hty0 : typedPostings (alistGet s M.domain))
    (hty1 : ∀ t ∈ M.terms, typedPostings (alistGet s t))
    (hty2 : ∀ t ∈ M.urlTerms, typedPostings (alistGet s t))
    (hty3 : ∀ t ∈ M.titleTerms, typedPostings (alistGet s t)) :
    performIndexing noFail ((performIndexing noFail s (.ok (some doc))).1)
        (.ok (some doc))
      = performIndexing noFail s (.ok (some doc)) := by
  by_cases hterms : doc.terms = []
  · simp [performIndexing, hterms]
  · obtain ⟨hfid, hfdm, hfurl, hflat, hMnd1, hMnd3, hMnd4, hMnd5,
      hsub1, hsub3, hsub4, hsub5⟩ :=
      mergePage_facts _ doc M hM hnd1 hnd3 hnd4 hnd5
    have hMnd2 : M.urlTerms.Nodup := hfurl ▸ hnd2
    have hndK : (M.bookmarks ++ M.visits).Nodup := by
      rw [List.nodup_append]
      exact ⟨hMnd5, hMnd4, fun a ha hb => htsd a ha hb⟩
    have hip1 : indexPage noFail s doc = (alistPut s doc.id (.record M), .ok M) := by
      simp only [indexPage, hM, putE_noFail]
    have hrun1 : performIndexing noFail s (.ok (some doc))
        = ((runIndexers noFail (alistPut s doc.id (.record M)) M).1, .ok ()) := by
      simp only [performIndexing, if_neg hterms, hip1]
    have hrec0 : alistGet (alistPut s doc.id (.record M)) M.id
        = some (.record M) := by
      rw [hfid]
      exact alistGet_put_self _ _ _
    have hfr : ∀ k, k ≠ M.id →
        alistGet (alistPut s doc.id (.record M)) k = alistGet s k := by
      intro k hk
      exact alistGet_put_ne _ _ _ _ fun he => hk (he ▸ hfid.symm)
    have hty0' : typedPostings (alistGet (alistPut s doc.id (.record M)) M.domain) := by
      rw [hfr M.domain fun he => hid6 he.symm]
      exact hty0
    have hty1' : ∀ t ∈ M.terms,
        typedPostings (alistGet (alistPut s doc.id (.record M)) t) := by
      intro t ht
      rw [hfr t fun he => hid1 (he ▸ ht)]
      exact hty1 t ht
    have hty2' : ∀ t ∈ M.urlTerms,
        typedPostings (alistGet (alistPut s doc.id (.record M)) t) := by
      intro t ht
      rw [hfr t fun he => hid2 (he ▸ ht)]
      exact hty2 t ht
    have hty3' : ∀ t ∈ M.titleTerms,
        typedPostings (alistGet (alistPut s doc.id (.record M)) t) := by
      intro t ht
      rw [hfr t fun he => hid3 (he ▸ ht)]
      exact hty3 t ht
    obtain ⟨g1, g2, g3, g4, g5, g6⟩ :=
      runIndexers_chain (alistPut s doc.id (.record M)) M hrec0
        hMnd2 hMnd3 hMnd1 hndK hid1 hid2 hid3 hidK hid6
        hdm1 hdm2 hdm3 hf1 hf2 hf3 htsK hty0' hty1' hty2' hty3'
    have hmrg : mergeDoc M doc = M :=
      mergeDoc_self doc M hfid.symm hfdm.symm hfurl.symm hflat.symm
        hMnd1 hMnd3 hMnd4 hMnd5 hsub1 hsub3 hsub4 hsub5
    have hget1 : alistGet (runIndexers noFail (alistPut s doc.id (.record M)) M).1
        doc.id = some (.record M) := by
      have hg := g1
      rwa [hfid] at hg
    have hmp2 : mergePage (singleLookup
        (runIndexers noFail (alistPut s doc.id (.record M)) M).1 doc.id) doc
        = .ok M := by
      show mergePage (alistGet _ doc.id) doc = .ok M
      rw [hget1]
      simp [mergePage, augmentIndexLookupDoc, hmrg]
    have hip2 : indexPage noFail
        (runIndexers noFail (alistPut s doc.id (.record M)) M).1 doc
        = ((runIndexers noFail (alistPut s doc.id (.record M)) M).1, .ok M) := by
      simp only [indexPage, hmp2, putE_noFail]
      rw [alistPut_of_get _ _ _ hget1]
    have hreplay : runIndexers noFail
        (runIndexers noFail (alistPut s doc.id (.record M)) M).1 M
        = ((runIndexers noFail (alistPut s doc.id (.record M)) M).1, .ok ()) :=
      runIndexers_replay _ M g2 g3 g4 g5 g6
    rw [hrun1]
    show performIndexing noFail
        ((runIndexers noFail (alistPut s doc.id (.record M)) M).1)
        (.ok (some doc)) = _
    simp only [performIndexing, if_neg hterms, hip2, hreplay]

/-- Witness for C9: indexing a concrete document twice into an empty store
equals indexing it once. -/
theorem performIndexing_idempotent_witness :
    performIndexing noFail
        ((performIndexing noFail []
          (.ok (some ⟨"p", "d", ["t1"], ["u1"], ["ti1"], ["v1"], ["b1"], 5⟩))).1)
        (.ok (some ⟨"p", "d", ["t1"], ["u1"], ["ti1"], ["v1"], ["b1"], 5⟩))
      = performIndexing noFail []
          (.ok (some ⟨"p", "d", ["t1"], ["u1"], ["ti1"], ["v1"], ["b1"], 5⟩)) :=
  performIndexing_idempotent []
    ⟨"p", "d", ["t1"], ["u1"], ["ti1"], ["v1"], ["b1"], 5⟩
    ⟨"p", "d", ["t1"], ["u1"], ["ti1"], ["v1"], ["b1"], 5⟩ rfl
    (by decide) (by decide) (by decide) (by decide) (by decide)
    (by decide) (by decide) (by decide) (by decide) (by decide)
    (by decide) (by decide) (by decide)
    (by decide) (by decide) (by decide)
    (by decide) (by decide)
    (by decide) (by decide) (by decide) (by decide)
